import Mathlib

/-!
Verification of the rule persistence and deduplication engine of the
`anime-recommendator` repository (`genetic_rule_miner`).

The definitions below are a shallow embedding of the Python sources:

* `utils/rule.py` — the `Rule` class: condition blocks, signature,
  equality, subset and specificity operations;
* `data/database.py` — the `DatabaseManager` class: bulk-load SQL
  construction and conflict keys, list-literal re-encoding,
  engine initialization, connection scoping, `save_rules` and
  `get_rules_by_target_value_paginated` (encode/decode of rules to and
  from the relational tables `rules` / `rule_conditions`).

Python values that can appear in a condition are modelled by `PyVal`
(integers and strings; `noneV` stands for Python's `None`, which can
appear in a decoded condition when both stored value columns are null).
`uuid.uuid4()` identifier minting is modelled by caller-supplied
identifier functions.  The SQL executed by PostgreSQL (`LEFT JOIN` /
`ORDER BY` / `OFFSET` / `LIMIT`, and `INSERT ... ON CONFLICT`) is given
its standard relational meaning on explicit row lists.
-/

namespace GRM

/-- A Python value stored in a rule condition (`str | int`; `noneV` models
Python `None`).  Floats are not used by any property considered here. -/
inductive PyVal where
  | intV : Int → PyVal
  | strV : String → PyVal
  | noneV : PyVal
deriving DecidableEq

/-- A condition `(column, (operator, value))`, the tuple form used by
`Rule.conditions` in `utils/rule.py`. -/
abbrev Cond := String × (String × PyVal)

/-- The `Rule` class of `utils/rule.py`: `self.conditions` is the pair
`(user_conditions, other_conditions)` and `self.target` the predicted
target value (an `np.int64`, modelled as `Int`).  The `columns` field is
kept by the source "for compatibility only" and takes no part in any
operation, so it is omitted. -/
structure Rule where
  userConditions : List Cond
  otherConditions : List Cond
  target : Int
deriving DecidableEq

/-- `Rule._cond_key_set`: the frozenset of `(column, operator)` pairs of a
condition block. -/
def condKeySet (conds : List Cond) : Finset (String × String) :=
  (conds.map (fun c => (c.1, c.2.1))).toFinset

/-- `Rule.cond_signature`: `(user key frozenset, other key frozenset, target)`. -/
def Rule.condSignature (r : Rule) :
    Finset (String × String) × Finset (String × String) × Int :=
  (condKeySet r.userConditions, condKeySet r.otherConditions, r.target)

/-- `Rule.__len__`: total number of raw conditions,
`len(self.conditions[0]) + len(self.conditions[1])`. -/
def Rule.ruleLen (r : Rule) : Nat :=
  r.userConditions.length + r.otherConditions.length

/-- `Rule.__eq__` restricted to `Rule` arguments (the `isinstance` guard of
the source is vacuous here): equality of condition signatures. -/
def ruleEq (a b : Rule) : Bool :=
  decide (a.condSignature = b.condSignature)

/-- `Rule.__hash__` is `hash(self.cond_signature())`: the hash of a rule is
an arbitrary function `h` of its signature only. -/
def ruleHash (h : Finset (String × String) × Finset (String × String) × Int → Int)
    (r : Rule) : Int :=
  h r.condSignature

/-- `Rule.is_subset_of`: `False` on differing targets, otherwise both key
frozensets must be subsets of the other rule's. -/
def Rule.isSubsetOf (a b : Rule) : Bool :=
  if a.target ≠ b.target then false
  else
    decide (condKeySet a.userConditions ⊆ condKeySet b.userConditions) &&
      decide (condKeySet a.otherConditions ⊆ condKeySet b.otherConditions)

/-- `Rule.is_more_specific_than`: `False` unless `is_subset_of`, then the
raw condition count must strictly exceed the other rule's. -/
def Rule.isMoreSpecificThan (a b : Rule) : Bool :=
  if !(a.isSubsetOf b) then false
  else
    decide (a.userConditions.length + a.otherConditions.length >
      b.userConditions.length + b.otherConditions.length)

/-- A row of the `rules` table, as written by `save_rules`:
`(rule_id, target_value)`. -/
structure RuleRow where
  rule_id : String
  target_value : Int
deriving DecidableEq

/-- A row of the `rule_conditions` table, as written by `save_rules`.
`value_text` / `value_numeric` are the two nullable value columns; at most
one is populated by the encoder. -/
structure CondRow where
  condition_id : String
  rule_id : String
  table_name : String
  column_name : String
  operator : String
  value_text : Option String
  value_numeric : Option Int
deriving DecidableEq

/-- The relational store as seen by `save_rules` and
`get_rules_by_target_value_paginated`. -/
structure DB where
  rules : List RuleRow
  rule_conditions : List CondRow
deriving DecidableEq

/-- A row produced by the query
`rules r LEFT JOIN rule_conditions rc ON r.rule_id = rc.rule_id`:
header columns plus the matched condition row, or `none` for the
null-padded row of a rule with no conditions. -/
structure JoinedRow where
  rule_id : String
  target_value : Int
  cond : Option CondRow
deriving DecidableEq

/-- Value routing of `save_rules`: `isinstance(value, (int, float))` sends
the value to `value_numeric`, anything else is stringified into
`value_text` (`str(None) = "None"`). -/
def routeValue (v : PyVal) : Option String × Option Int :=
  match v with
  | .intV n => (none, some n)
  | .strV s => (some s, none)
  | .noneV => (some "None", none)

/-- One encoded condition row of `save_rules`. -/
def mkCondRow (cid rid tbl : String) (c : Cond) : CondRow :=
  { condition_id := cid
    rule_id := rid
    table_name := tbl
    column_name := c.1
    operator := c.2.1
    value_text := (routeValue c.2.2).1
    value_numeric := (routeValue c.2.2).2 }

/-- Encode a block of conditions, minting `condition_id`s `cids j`,
`cids (j+1)`, ... in sequence order (the model of the per-condition
`uuid.uuid4()` calls of `save_rules`). -/
def tagConds (cids : Nat → String) (rid tbl : String) :
    Nat → List Cond → List CondRow
  | _, [] => []
  | j, c :: cs => mkCondRow (cids j) rid tbl c :: tagConds cids rid tbl (j + 1) cs

/-- `save_rules` for a single rule: the condition rows it appends, user
conditions tagged `"user_details"` first, then other conditions tagged
`"anime_dataset"`. -/
def condRowsOf (cids : Nat → String) (rid : String) (r : Rule) : List CondRow :=
  tagConds cids rid "user_details" 0 r.userConditions ++
    tagConds cids rid "anime_dataset" r.userConditions.length r.otherConditions

/-- `DatabaseManager.save_rules`: append one header row per rule (with a
minted `rule_id`) and the encoded condition rows.  `ridOf i` and
`cidOf i j` supply the `uuid.uuid4()` identifiers for rule `i` and its
`j`-th condition. -/
def saveRules (ridOf : Nat → String) (cidOf : Nat → Nat → String)
    (rs : List Rule) (db : DB) : DB :=
  { rules := db.rules ++ (rs.enum.map fun p => ⟨ridOf p.1, p.2.target⟩)
    rule_conditions := db.rule_conditions ++
      (rs.enum.map fun p => condRowsOf (cidOf p.1) (ridOf p.1) p.2).flatten }

/-- The `LEFT JOIN` of the paginated query: each `rules` row paired with
every matching `rule_conditions` row, or null-padded when none matches. -/
def leftJoin (db : DB) : List JoinedRow :=
  (db.rules.map fun r =>
    match db.rule_conditions.filter (fun c => c.rule_id = r.rule_id) with
    | [] => [⟨r.rule_id, r.target_value, none⟩]
    | cs => cs.map fun c => ⟨r.rule_id, r.target_value, some c⟩).flatten

/-- `ORDER BY rc.condition_id` comparison on the join's condition side;
the null-padded row sorts last (PostgreSQL's default `NULLS LAST` for an
ascending key). -/
def condIdLE : Option CondRow → Option CondRow → Bool
  | none, none => true
  | none, some _ => false
  | some _, none => true
  | some a, some b =>
      match compare a.condition_id b.condition_id with
      | Ordering.gt => false
      | _ => true

/-- `ORDER BY r.rule_id, rc.condition_id`. -/
def rowLE (x y : JoinedRow) : Bool :=
  if x.rule_id = y.rule_id then condIdLE x.cond y.cond
  else
    match compare x.rule_id y.rule_id with
    | Ordering.gt => false
    | _ => true

/-- Insertion step of the model sort implementing the query's `ORDER BY`. -/
def insertRow (x : JoinedRow) : List JoinedRow → List JoinedRow
  | [] => [x]
  | y :: ys => if rowLE x y then x :: y :: ys else y :: insertRow x ys

/-- The query's `ORDER BY r.rule_id, rc.condition_id` as an insertion
sort. -/
def sortRows : List JoinedRow → List JoinedRow
  | [] => []
  | x :: xs => insertRow x (sortRows xs)

/-- The per-`rule_id` accumulator of the decode loop: the dict value
`{"target_value": ..., "user_conditions": [...], "other_conditions": [...]}`. -/
structure RData where
  target_value : Int
  user_conditions : List Cond
  other_conditions : List Cond
deriving DecidableEq

/-- The condition (if any) a fetched row contributes, and the block it goes
to.  This is the body of the decode loop: `if row["column_name"]:` (Python
truthiness: skip on SQL null *and* on the empty string), value taken from
`value_numeric` when non-null else from `value_text`, and the block chosen
by `row["table_name"] == "user_details"` (`true` = user block). -/
def rowCond (row : JoinedRow) : Option (Bool × Cond) :=
  match row.cond with
  | none => none
  | some c =>
    if c.column_name = "" then none
    else
      let value : PyVal :=
        match c.value_numeric with
        | some n => PyVal.intV n
        | none =>
          match c.value_text with
          | some s => PyVal.strV s
          | none => PyVal.noneV
      some (c.table_name = "user_details", (c.column_name, (c.operator, value)))

/-- Append the contribution of one fetched row to a rule's accumulated
data. -/
def applyRowData (row : JoinedRow) (d : RData) : RData :=
  match rowCond row with
  | none => d
  | some (true, c) => { d with user_conditions := d.user_conditions ++ [c] }
  | some (false, c) => { d with other_conditions := d.other_conditions ++ [c] }

/-- First entry of the (insertion-ordered) rule dict with the given key. -/
def findEntry : List (String × RData) → String → Option RData
  | [], _ => none
  | (k, d) :: rest, rid => if k = rid then some d else findEntry rest rid

/-- `rule_id in rules_dict`. -/
def hasKey (acc : List (String × RData)) (rid : String) : Bool :=
  (findEntry acc rid).isSome

/-- Update the entry with the given key in place (keys are unique in the
decode loop's dict, so updating the first occurrence is the dict update). -/
def updEntry : List (String × RData) → String → (RData → RData) →
    List (String × RData)
  | [], _, _ => []
  | (k, d) :: rest, rid, f =>
      if k = rid then (k, f d) :: rest else (k, d) :: updEntry rest rid f

/-- One iteration of `for row in result`: create the dict entry on first
sight of a `rule_id` (recording `target_value` from that row), then append
the row's condition — if it has one — to the proper block. -/
def groupStep (acc : List (String × RData)) (row : JoinedRow) :
    List (String × RData) :=
  let acc1 :=
    if hasKey acc row.rule_id then acc
    else acc ++ [(row.rule_id,
      { target_value := row.target_value
        user_conditions := []
        other_conditions := [] })]
  updEntry acc1 row.rule_id (applyRowData row)

/-- The full decode loop: an insertion-ordered dict from `rule_id` to the
accumulated rule data. -/
def groupRows (rows : List JoinedRow) : List (String × RData) :=
  rows.foldl groupStep []

/-- The `RuleWithID` namedtuple. -/
structure RuleWithID where
  rule_id : String
  rule_obj : Rule
deriving DecidableEq

/-- The final conversion loop of the fetch: each dict entry becomes a
`RuleWithID`.  The `Rule(...)` constructor never raises on the tuple-form
conditions built by the decode loop, so the `try/except` of the source is
the identity here. -/
def buildRules (entries : List (String × RData)) : List RuleWithID :=
  entries.map fun e =>
    ⟨e.1, ⟨e.2.user_conditions, e.2.other_conditions, e.2.target_value⟩⟩

/-- `DatabaseManager.get_rules_by_target_value_paginated` (the successful
path): filter the join by `target_value`, order by
`(rule_id, condition_id)`, window by `OFFSET`/`LIMIT`, then group and
rebuild `Rule` objects. -/
def fetchByTarget (db : DB) (target : Int) (offset limit : Nat) :
    List RuleWithID :=
  let rows := sortRows ((leftJoin db).filter (fun row => row.target_value = target))
  buildRules (groupRows ((rows.drop offset).take limit))

/-- The condition a fetched row contributes to the user block, if any. -/
def userOf (row : JoinedRow) : Option Cond :=
  match rowCond row with
  | some (true, c) => some c
  | _ => none

/-- The condition a fetched row contributes to the other block, if any. -/
def otherOf (row : JoinedRow) : Option Cond :=
  match rowCond row with
  | some (false, c) => some c
  | _ => none

/-- How a stored value decodes back into a condition value
(`value_numeric` preferred, else `value_text`). -/
def decodeVal : PyVal → PyVal
  | .intV n => .intV n
  | .strV s => .strV s
  | .noneV => .strV "None"

/-- A condition after an encode/decode round trip: column and operator are
preserved, the value goes through `decodeVal`. -/
def decodeCond (c : Cond) : Cond :=
  (c.1, (c.2.1, decodeVal c.2.2))

/-- The joined row pairing a header with one stored condition row. -/
def joinedOf (rid : String) (t : Int) (c : CondRow) : JoinedRow :=
  ⟨rid, t, some c⟩

/-- A stored condition row whose `column_name` is the empty string:
non-null, yet falsy for Python's `if row["column_name"]:`. -/
def emptyColCondRow : CondRow :=
  ⟨"c0", "r1", "user_details", "", "==", none, some 1⟩

/-- A store holding one rule (target 5) whose only condition row has the
empty-string `column_name`. -/
def dbEmptyCol : DB := ⟨[⟨"r1", 5⟩], [emptyColCondRow]⟩

/-- Rows of one fetched rule used to witness the amended C10. -/
def rowsW : List JoinedRow :=
  [⟨"r1", 3, some ⟨"c1", "r1", "user_details", "age", ">", none, some 18⟩⟩,
    ⟨"r1", 3, some ⟨"c2", "r1", "anime_dataset", "score", "<", none, some 7⟩⟩]

/-- The grouped data the decode loop builds for `rowsW`. -/
def dW : RData :=
  ⟨3, [("age", (">", PyVal.intV 18))], [("score", ("<", PyVal.intV 7))]⟩

/-- A rule with an empty-string condition column: legal for the in-memory
`Rule`, but its encoded row fails the decode loop's truthiness test. -/
def c1BadRule : Rule := ⟨[("", ("==", PyVal.intV 1))], [], 5⟩

/-- Example rules used by witnesses and counterexamples. -/
def ruleA : Rule :=
  ⟨[("x", ("==", PyVal.intV 1)), ("y", ("<", PyVal.strV "q"))], [], 3⟩

/-- Same signature as `ruleA`: the key pairs are reordered and every
literal value is different. -/
def ruleB : Rule :=
  ⟨[("y", ("<", PyVal.intV 9)), ("x", ("==", PyVal.strV "z"))], [], 3⟩

/-- A strictly larger rule with the same target: `ruleA ⊆ ruleC`. -/
def ruleC : Rule :=
  ⟨[("x", ("==", PyVal.intV 7)), ("y", ("<", PyVal.intV 0)),
    ("z", (">", PyVal.intV 2))], [("g", ("in", PyVal.strV "a"))], 3⟩

/-- Like `ruleA` but with a different target. -/
def ruleD : Rule :=
  ⟨[("x", ("==", PyVal.intV 1)), ("y", ("<", PyVal.strV "q"))], [], 4⟩

/-- `ruleA` with a duplicated `(column, operator)` pair: same signature as
`ruleA` and `ruleB`, one more raw condition. -/
def ruleE : Rule :=
  ⟨[("x", ("==", PyVal.intV 1)), ("x", ("==", PyVal.intV 5)),
    ("y", ("<", PyVal.strV "q"))], [], 3⟩

/-- A rule with two user conditions, used to exhibit how the fetch window
cuts through a rule's joined rows. -/
def rulePag : Rule :=
  ⟨[("a", (">", PyVal.intV 1)), ("b", ("<", PyVal.intV 2))], [], 7⟩

/-- The store after persisting `rulePag` into an empty database. -/
def dbPag : DB :=
  saveRules (fun _ => "r1") (fun _ j => toString j) [rulePag] ⟨[], []⟩

/-- `DatabaseManager._get_conflict_columns`: the conflict-key columns for
each known table; unknown tables get none. -/
def getConflictColumns (table : String) : List String :=
  if table = "user_score" then ["user_id", "anime_id"]
  else if table = "anime_dataset" then ["anime_id"]
  else if table = "user_details" then ["mal_id"]
  else []

/-- The column list of the generated `DO UPDATE SET` clause: the list
comprehension `[col for col in columns if col not in conflict_columns]`. -/
def updateClauseCols (columns conflictColumns : List String) : List String :=
  columns.filter (fun col => col ∉ conflictColumns)

/-- The default update clause of `_construct_sql`:
`col = EXCLUDED.col` for every non-conflict column. -/
def updateClause (columns conflictColumns : List String) : String :=
  String.intercalate ", "
    ((updateClauseCols columns conflictColumns).map
      (fun col => col ++ " = EXCLUDED." ++ col))

/-- The insert head shared by all branches of `_construct_sql`:
`INSERT INTO table (columns) VALUES (:col placeholders)` (whitespace
normalized; the source's f-string indentation is immaterial). -/
def insertStmtHead (table : String) (columns : List String) : String :=
  "INSERT INTO " ++ table ++ " (" ++ String.intercalate ", " columns ++
    ") VALUES (" ++
    String.intercalate ", " (columns.map (fun col => ":" ++ col)) ++ ")"

/-- `DatabaseManager._construct_sql`: plain insert without conflict
columns; with conflict columns, `ON CONFLICT (...)` followed by either
`DO UPDATE SET <clause>` (a falsy `update_clause` argument falls back to
the default clause, as `update_clause or ...` does) or the literal
conflict action. -/
def constructSql (table : String) (columns conflictColumns : List String)
    (conflictAction : String) (updateClauseArg : Option String) : String :=
  if conflictColumns ≠ [] then
    let conflictStr :=
      "ON CONFLICT (" ++ String.intercalate ", " conflictColumns ++ ")"
    if conflictAction = "DO UPDATE" then
      let uc :=
        match updateClauseArg with
        | some u => if u = "" then updateClause columns conflictColumns else u
        | none => updateClause columns conflictColumns
      insertStmtHead table columns ++ " " ++ conflictStr ++ " DO UPDATE SET " ++ uc
    else
      insertStmtHead table columns ++ " " ++ conflictStr ++ " " ++ conflictAction
  else
    insertStmtHead table columns

/-- A table row for the conflict-semantics model: column name / value
pairs. -/
abbrev SqlRow := List (String × String)

/-- Value of a column in a row (PostgreSQL semantics helper for the
generated statement; not repository code). -/
def getCol (row : SqlRow) (c : String) : Option String :=
  (row.find? (fun p => p.1 = c)).map (fun p => p.2)

/-- Two rows agree on every conflict-key column. -/
def sameKey (ccols : List String) (r1 r2 : SqlRow) : Bool :=
  ccols.all (fun c => getCol r1 c == getCol r2 c)

/-- Apply the generated `DO UPDATE SET` assignments: each assigned column
of the existing row takes the incoming row's value. -/
def updateRow (assignCols : List String) (incoming existing : SqlRow) : SqlRow :=
  existing.map (fun p =>
    if p.1 ∈ assignCols then (p.1, (getCol incoming p.1).getD p.2) else p)

/-- PostgreSQL's execution of the generated `INSERT ... ON CONFLICT`
statement for one incoming row: no conflict key or no key match inserts;
on a key match, `DO UPDATE` (`doUpdate = true`) rewrites the matching rows
through the assignment list, `DO NOTHING` leaves the state unchanged. -/
def execInsertRow (ccols assignCols : List String) (doUpdate : Bool)
    (state : List SqlRow) (incoming : SqlRow) : List SqlRow :=
  if ccols = [] then state ++ [incoming]
  else if state.any (fun r => sameKey ccols incoming r) then
    if doUpdate then
      state.map (fun r =>
        if sameKey ccols incoming r then updateRow assignCols incoming r else r)
    else state
  else state ++ [incoming]

/-- The list-valued columns of `copy_from_buffer`. -/
def arrayColumns : List String := ["genres", "keywords", "producers"]

/-- `escape_element`: escape backslashes then double quotes; wrap the
element in double quotes when the escaped text still contains a
delimiter-sensitive character (comma, space, brace, or quote). -/
def escapeElement (el : String) : String :=
  let e := (el.replace "\\" "\\\\").replace "\"" "\\\""
  if [',', ' ', '\x7b', '\x7d', '\"'].any (fun c => e.contains c) then
    "\"" ++ e ++ "\""
  else e

/-- `to_pg_array`: the PostgreSQL array literal — brace-wrapped,
comma-joined escaped elements (elements are their `str(...)` forms). -/
def toPgArray (arr : List String) : String :=
  "\x7b" ++ String.intercalate "," (arr.map escapeElement) ++ "\x7d"

/-- Outcome of `ast.literal_eval` on a cell, abstracted: a Python list
literal (elements already stringified), some non-list literal, or a
raised parse error. -/
inductive ParseResult where
  | okList : List String → ParseResult
  | nonList : ParseResult
  | err : ParseResult
deriving DecidableEq

/-- The array-column body of the row loop of `copy_from_buffer`:
re-encode a parsed list literal; leave the cell text unchanged when the
literal is not a list or when parsing raises (`except Exception: pass`). -/
def processArrayValue (parse : String → ParseResult) (v : String) : String :=
  match parse v with
  | .okList xs => toPgArray xs
  | .nonList => v
  | .err => v

/-- Full cell cleaning of `copy_from_buffer`: the `"\\N"` sentinel becomes
SQL null; then a non-null, non-empty value of a list-valued column is
re-encoded through `processArrayValue`. -/
def cleanCell (parse : String → ParseResult) (col : String) (v : String) :
    Option String :=
  if v = "\\N" then none
  else if col ∈ arrayColumns ∧ v ≠ "" then some (processArrayValue parse v)
  else some v

/-- `DBConfig` of `config.py`: connection parameters; the port is an
integer. -/
structure DBConfig where
  host : String
  port : Int
  database : String
  user : String
  password : String
deriving DecidableEq

/-- Python truthiness of the chain
`self.config and self.config.password and self.config.user and
self.config.host and self.config.port and self.config.database`: empty
strings and a zero port are falsy. -/
def configComplete (c : DBConfig) : Bool :=
  decide (c.password ≠ "") && decide (c.user ≠ "") && decide (c.host ≠ "") &&
    decide (c.port ≠ 0) && decide (c.database ≠ "")

/-- The connection string built on the complete-config path of
`_init_sqlalchemy_engine`. -/
def connString (c : DBConfig) : String :=
  "postgresql+psycopg2://" ++ c.user ++ ":" ++ c.password ++ "@" ++ c.host ++
    ":" ++ toString c.port ++ "/" ++ c.database

/-- `DatabaseManager._init_sqlalchemy_engine`.  `createEngine` abstracts
`sqlalchemy.create_engine` (`.ok` = the engine value, `.error` = raised).
With a truthy, complete config the engine is created and a raising
constructor is wrapped into the storage error; with an absent or
incomplete config the method only logs "Config is empty" and returns
normally with the engine still unset. -/
def initSqlalchemyEngine (createEngine : String → Except String String)
    (config : Option DBConfig) : Except String (Option String) :=
  match config with
  | some c =>
    if configComplete c then
      match createEngine (connString c) with
      | .ok e => .ok (some e)
      | .error _ => .error "SQLAlchemy engine initialization failed"
    else .ok none
  | none => .ok none

/-- The storage error (`DatabaseError`): message plus the original fault
preserved as `__cause__` by `raise ... from e`. -/
structure DatabaseError where
  msg : String
  cause : Option String
deriving DecidableEq

/-- `DatabaseManager.connection()` wrapped around one unit of work `op`
(`.ok` = the block's value, `.error` = the exception the block raises): a
missing engine raises the storage error ("Database engine not
initialized", itself re-wrapped by the `except`), and any exception
escaping the block is wrapped into `DatabaseError("Connection failed")`
with the original fault as its cause. -/
def runWithConnection {α : Type} (engine : Option String)
    (op : String → Except String α) : Except DatabaseError α :=
  match engine with
  | none => .error ⟨"Connection failed", some "Database engine not initialized"⟩
  | some e =>
    match op e with
    | .ok a => .ok a
    | .error exc => .error ⟨"Connection failed", some exc⟩

/-- The fault handling of `get_rules_by_target_value_paginated`:
`queryResult` abstracts the outcome of executing the windowed query
(`.error` = a raised query-level fault).  The inner `except Exception`
catches the fault, logs it, and returns the empty list as a normal
result, which the scoped connection then commits and passes through. -/
def getRulesPaginatedResult (engine : Option String)
    (queryResult : Except String (List JoinedRow)) :
    Except DatabaseError (List RuleWithID) :=
  runWithConnection engine (fun _ =>
    match queryResult with
    | .ok rows => .ok (buildRules (groupRows rows))
    | .error _ => .ok [])

/-- The fault handling of `save_rules`: the inner `except` rolls back and
re-raises, so the exception leaves the `with self.connection()` block and
is wrapped there. -/
def saveRulesResult (engine : Option String)
    (execResult : Except String Unit) : Except DatabaseError Unit :=
  runWithConnection engine (fun _ => execResult)

theorem insertRow_perm (x : JoinedRow) (l : List JoinedRow) :
    List.Perm (insertRow x l) (x :: l) := by
  induction l with
  | nil => simp [insertRow]
  | cons y ys ih =>
    by_cases h : rowLE x y = true
    · simp [insertRow, h]
    · simp only [insertRow, h, Bool.false_eq_true, if_false]
      exact (ih.cons y).trans (List.Perm.swap x y ys)

theorem sortRows_perm (l : List JoinedRow) : List.Perm (sortRows l) l := by
  induction l with
  | nil => simp [sortRows]
  | cons x xs ih =>
    exact (insertRow_perm x (sortRows xs)).trans (ih.cons x)

theorem findEntry_updEntry (acc : List (String × RData)) (k rid : String)
    (f : RData → RData) :
    findEntry (updEntry acc k f) rid =
      if rid = k then (findEntry acc rid).map f else findEntry acc rid := by
  induction acc with
  | nil => simp [updEntry, findEntry]
  | cons e rest ih =>
    obtain ⟨k0, d0⟩ := e
    by_cases hk : k0 = k
    · subst hk
      by_cases hr : k0 = rid
      · subst hr
        simp [updEntry, findEntry]
      · simp [updEntry, findEntry, hr, Ne.symm hr]
    · by_cases hr : k0 = rid
      · subst hr
        simp [updEntry, findEntry, hk, fun h : k0 = k => hk h]
      · simp [updEntry, findEntry, hk, hr, ih]

theorem findEntry_append_of_some (acc l : List (String × RData)) (rid : String)
    (d : RData) (h : findEntry acc rid = some d) :
    findEntry (acc ++ l) rid = some d := by
  induction acc with
  | nil => simp [findEntry] at h
  | cons e rest ih =>
    by_cases hk : e.1 = rid
    · simp [findEntry, hk] at h ⊢
      exact h
    · simp [findEntry, hk] at h ⊢
      exact ih h

theorem findEntry_append_of_none (acc l : List (String × RData)) (rid : String)
    (h : findEntry acc rid = none) :
    findEntry (acc ++ l) rid = findEntry l rid := by
  induction acc with
  | nil => simp
  | cons e rest ih =>
    by_cases hk : e.1 = rid
    · simp [findEntry, hk] at h
    · simp [findEntry, hk] at h ⊢
      exact ih h

theorem findEntry_groupStep (acc : List (String × RData)) (row : JoinedRow)
    (rid : String) :
    findEntry (groupStep acc row) rid =
      if rid = row.rule_id then
        some (applyRowData row
          ((findEntry acc rid).getD ⟨row.target_value, [], []⟩))
      else findEntry acc rid := by
  unfold groupStep hasKey
  by_cases hk : (findEntry acc row.rule_id).isSome
  · obtain ⟨d0, hd0⟩ := Option.isSome_iff_exists.mp hk
    rw [if_pos hk, findEntry_updEntry]
    by_cases hr : rid = row.rule_id
    · subst hr
      simp [hd0]
    · simp [hr]
  · have hnone : findEntry acc row.rule_id = none := by
      cases h : findEntry acc row.rule_id with
      | none => rfl
      | some d => rw [h] at hk; simp at hk
    rw [if_neg hk, findEntry_updEntry]
    by_cases hr : rid = row.rule_id
    · subst hr
      rw [findEntry_append_of_none acc _ _ hnone]
      simp [findEntry, hnone]
    · simp only [if_neg hr]
      cases h : findEntry acc rid with
      | none =>
        rw [findEntry_append_of_none acc _ _ h]
        simp [findEntry, (Ne.symm hr : row.rule_id ≠ rid)]
      | some d => exact findEntry_append_of_some acc _ _ _ h

/-- The decode loop, seen through `findEntry`: the entry for `rid` is an
`Option`-valued fold over exactly the rows carrying that `rule_id`. -/
theorem findEntry_foldl_groupStep (rows : List JoinedRow)
    (acc : List (String × RData)) (rid : String) :
    findEntry (rows.foldl groupStep acc) rid =
      (rows.filter (fun row => row.rule_id = rid)).foldl
        (fun od row => some (applyRowData row (od.getD ⟨row.target_value, [], []⟩)))
        (findEntry acc rid) := by
  induction rows generalizing acc with
  | nil => simp
  | cons x xs ih =>
    rw [List.foldl_cons, ih]
    by_cases hr : x.rule_id = rid
    · rw [List.filter_cons_of_pos (by simp [hr]), List.foldl_cons,
        findEntry_groupStep, if_pos hr.symm]
    · rw [List.filter_cons_of_neg (by simp [hr]), findEntry_groupStep,
        if_neg (fun h => hr h.symm)]

theorem foldl_applyRowData (l : List JoinedRow) (d : RData) :
    l.foldl (fun d row => applyRowData row d) d =
      ⟨d.target_value, d.user_conditions ++ l.filterMap userOf,
        d.other_conditions ++ l.filterMap otherOf⟩ := by
  induction l generalizing d with
  | nil => simp
  | cons x xs ih =>
    rw [List.foldl_cons, ih]
    cases hc : rowCond x with
    | none =>
      simp [applyRowData, hc, List.filterMap_cons, userOf, otherOf]
    | some bc =>
      obtain ⟨b, c⟩ := bc
      cases b
      · simp [applyRowData, hc, List.filterMap_cons, userOf, otherOf]
      · simp [applyRowData, hc, List.filterMap_cons, userOf, otherOf]

theorem optFold_applyRowData_some (l : List JoinedRow) (d : RData) :
    l.foldl
      (fun od row => some (applyRowData row (od.getD ⟨row.target_value, [], []⟩)))
      (some d) = some (l.foldl (fun d row => applyRowData row d) d) := by
  induction l generalizing d with
  | nil => simp
  | cons x xs ih => simp [ih]

/-- Full characterization of the decode loop's dict: no entry without a
matching row; with matching rows, the target comes from the first one and
the two blocks collect exactly the routed conditions, in row order. -/
theorem findEntry_groupRows (rows : List JoinedRow) (rid : String) :
    findEntry (groupRows rows) rid =
      match rows.filter (fun row => row.rule_id = rid) with
      | [] => none
      | r0 :: rest =>
          some ⟨r0.target_value, (r0 :: rest).filterMap userOf,
            (r0 :: rest).filterMap otherOf⟩ := by
  unfold groupRows
  rw [findEntry_foldl_groupStep]
  cases hf : rows.filter (fun row => row.rule_id = rid) with
  | nil => simp [findEntry]
  | cons r0 rest =>
    rw [List.foldl_cons]
    simp only [findEntry, Option.getD_none]
    rw [optFold_applyRowData_some, foldl_applyRowData]
    have : applyRowData r0 ⟨r0.target_value, [], []⟩ =
        ⟨r0.target_value, [].filterMap userOf ++ [r0].filterMap userOf,
          [].filterMap otherOf ++ [r0].filterMap otherOf⟩ := by
      have := foldl_applyRowData [r0] ⟨r0.target_value, [], []⟩
      simpa using this
    rw [this]
    simp [List.filterMap_cons]
    cases hu : userOf r0 <;> cases ho : otherOf r0 <;> simp [hu, ho]

theorem keys_updEntry (acc : List (String × RData)) (k : String)
    (f : RData → RData) :
    (updEntry acc k f).map Prod.fst = acc.map Prod.fst := by
  induction acc with
  | nil => simp [updEntry]
  | cons e rest ih =>
    by_cases hk : e.1 = k
    · obtain ⟨k0, d0⟩ := e
      simp only at hk
      simp [updEntry, hk]
    · obtain ⟨k0, d0⟩ := e
      simp only at hk
      simp [updEntry, hk, ih]

theorem findEntry_eq_none_iff (acc : List (String × RData)) (rid : String) :
    findEntry acc rid = none ↔ rid ∉ acc.map Prod.fst := by
  induction acc with
  | nil => simp [findEntry]
  | cons e rest ih =>
    by_cases hk : e.1 = rid
    · simp [findEntry, hk]
    · simp [findEntry, hk, ih, Ne.symm hk]

theorem keys_nodup_groupStep (acc : List (String × RData)) (row : JoinedRow)
    (h : (acc.map Prod.fst).Nodup) :
    ((groupStep acc row).map Prod.fst).Nodup := by
  unfold groupStep
  rw [keys_updEntry]
  by_cases hk : hasKey acc row.rule_id
  · simpa [hk] using h
  · have hnot : row.rule_id ∉ acc.map Prod.fst := by
      rw [← findEntry_eq_none_iff]
      unfold hasKey at hk
      cases hfe : findEntry acc row.rule_id with
      | none => rfl
      | some d => rw [hfe] at hk; simp at hk
    simp only [hk, Bool.false_eq_true, if_false, List.map_append, List.map_cons,
      List.map_nil]
    rw [List.nodup_append]
    refine ⟨h, List.nodup_singleton _, ?_⟩
    intro a ha hb
    simp at hb
    subst hb
    exact hnot ha

theorem groupRows_keys_nodup (rows : List JoinedRow) :
    ((groupRows rows).map Prod.fst).Nodup := by
  unfold groupRows
  have main : ∀ (l : List JoinedRow) (acc : List (String × RData)),
      (acc.map Prod.fst).Nodup → ((l.foldl groupStep acc).map Prod.fst).Nodup := by
    intro l
    induction l with
    | nil => intro acc h; simpa using h
    | cons x xs ih =>
      intro acc h
      exact ih (groupStep acc x) (keys_nodup_groupStep acc x h)
  exact main rows [] (by simp)

theorem findEntry_of_mem (acc : List (String × RData)) (rid : String) (d : RData)
    (hn : (acc.map Prod.fst).Nodup) (hm : (rid, d) ∈ acc) :
    findEntry acc rid = some d := by
  induction acc with
  | nil => simp at hm
  | cons e rest ih =>
    rcases List.mem_cons.mp hm with he | hrest
    · subst he
      simp [findEntry]
    · have hk : e.1 ≠ rid := by
        intro hcontra
        have : rid ∈ rest.map Prod.fst :=
          List.mem_map.mpr ⟨(rid, d), hrest, rfl⟩
        rw [List.map_cons, List.nodup_cons] at hn
        exact hn.1 (hcontra ▸ this)
      simp only [findEntry, hk, if_neg, if_false]
      exact ih (by rw [List.map_cons, List.nodup_cons] at hn; exact hn.2) hrest

/-- Counterexample to C10 as stated: the fetched row for `dbEmptyCol` has a
non-null `column_name` (the empty string) and `table_name =
"user_details"`, so the claim demands it be placed in `user_conditions`;
the code's truthiness test drops it instead, and the reconstructed rule
has two empty blocks. -/
theorem c10_counterexample :
    emptyColCondRow.column_name = "" ∧
      emptyColCondRow.table_name = "user_details" ∧
      fetchByTarget dbEmptyCol 5 0 500 =
        [⟨"r1", ⟨[], [], 5⟩⟩] := by
  refine ⟨rfl, rfl, ?_⟩
  decide

/-- C10 (amended): during decode, a fetched row contributes no condition
when its `column_name` is null **or empty** (Python truthiness); every row
with a non-empty `column_name` is routed to `user_conditions` exactly when
its `table_name` equals `"user_details"` and to `other_conditions` for any
other `table_name`; and each reconstructed rule's two blocks consist of
exactly these routed conditions of its own `rule_id`'s rows. -/
theorem c10_decode_partition (rows : List JoinedRow) (rid : String) (d : RData)
    (hmem : (rid, d) ∈ groupRows rows) :
    (d.user_conditions =
        (rows.filter (fun row => row.rule_id = rid)).filterMap userOf ∧
      d.other_conditions =
        (rows.filter (fun row => row.rule_id = rid)).filterMap otherOf) ∧
    (∀ row : JoinedRow, row.cond = none →
      userOf row = none ∧ otherOf row = none) ∧
    (∀ (row : JoinedRow) (c : CondRow), row.cond = some c →
      c.column_name = "" → userOf row = none ∧ otherOf row = none) ∧
    (∀ (row : JoinedRow) (c : CondRow), row.cond = some c →
      c.column_name ≠ "" → c.table_name = "user_details" →
      ∃ v, userOf row = some (c.column_name, (c.operator, v)) ∧
        otherOf row = none) ∧
    (∀ (row : JoinedRow) (c : CondRow), row.cond = some c →
      c.column_name ≠ "" → c.table_name ≠ "user_details" →
      ∃ v, otherOf row = some (c.column_name, (c.operator, v)) ∧
        userOf row = none) := by
  refine ⟨?_, ?_, ?_, ?_, ?_⟩
  · have hfe := findEntry_of_mem _ _ _ (groupRows_keys_nodup rows) hmem
    rw [findEntry_groupRows] at hfe
    cases hf : rows.filter (fun row => row.rule_id = rid) with
    | nil => rw [hf] at hfe; simp at hfe
    | cons r0 rest =>
      rw [hf] at hfe
      simp only [Option.some.injEq] at hfe
      rw [← hfe]
      exact ⟨rfl, rfl⟩
  · intro row h
    simp [userOf, otherOf, rowCond, h]
  · intro row c h hcol
    simp [userOf, otherOf, rowCond, h, hcol]
  · intro row c h hcol htbl
    refine ⟨(match c.value_numeric with
      | some n => PyVal.intV n
      | none =>
        match c.value_text with
        | some s => PyVal.strV s
        | none => PyVal.noneV), ?_, ?_⟩
    · simp [userOf, rowCond, h, hcol, htbl]
    · simp [otherOf, rowCond, h, hcol, htbl]
  · intro row c h hcol htbl
    refine ⟨(match c.value_numeric with
      | some n => PyVal.intV n
      | none =>
        match c.value_text with
        | some s => PyVal.strV s
        | none => PyVal.noneV), ?_, ?_⟩
    · simp [otherOf, rowCond, h, hcol, htbl]
    · simp [userOf, rowCond, h, hcol, htbl]

/-- Witness for the amended C10 at a concrete fetched page: the
`user_details` row lands in the user block and the `anime_dataset` row in
the other block. -/
theorem c10_decode_partition_witness :
    dW.user_conditions =
        (rowsW.filter (fun row => row.rule_id = "r1")).filterMap userOf ∧
      dW.other_conditions =
        (rowsW.filter (fun row => row.rule_id = "r1")).filterMap otherOf :=
  (c10_decode_partition rowsW "r1" dW (by decide)).1

theorem mem_of_findEntry (acc : List (String × RData)) (rid : String) (d : RData)
    (h : findEntry acc rid = some d) : (rid, d) ∈ acc := by
  induction acc with
  | nil => simp [findEntry] at h
  | cons e rest ih =>
    by_cases hk : e.1 = rid
    · obtain ⟨k0, d0⟩ := e
      simp only at hk
      subst hk
      simp [findEntry] at h
      subst h
      exact List.mem_cons_self _ _
    · simp [findEntry, hk] at h
      exact List.mem_cons_of_mem _ (ih h)

theorem tagConds_length (cids : Nat → String) (rid tbl : String) (j : Nat)
    (cs : List Cond) : (tagConds cids rid tbl j cs).length = cs.length := by
  induction cs generalizing j with
  | nil => simp [tagConds]
  | cons c cs ih => simp [tagConds, ih]

theorem mem_tagConds (cids : Nat → String) (rid tbl : String) (j : Nat)
    (cs : List Cond) :
    ∀ cr ∈ tagConds cids rid tbl j cs, cr.rule_id = rid ∧ cr.table_name = tbl := by
  induction cs generalizing j with
  | nil => simp [tagConds]
  | cons c cs ih =>
    intro cr hcr
    rcases List.mem_cons.mp hcr with h0 | hrest
    · subst h0
      exact ⟨rfl, rfl⟩
    · exact ih (j + 1) cr hrest

theorem condRowsOf_rule_id (cids : Nat → String) (rid : String) (r : Rule) :
    ∀ cr ∈ condRowsOf cids rid r, cr.rule_id = rid := by
  intro cr hcr
  rcases List.mem_append.mp hcr with h | h
  · exact (mem_tagConds _ _ _ _ _ cr h).1
  · exact (mem_tagConds _ _ _ _ _ cr h).1

theorem rowCond_joined_user (rid2 rid' : String) (t : Int) (cid : String)
    (c : Cond) (h : c.1 ≠ "") :
    rowCond (joinedOf rid' t (mkCondRow cid rid2 "user_details" c)) =
      some (true, decodeCond c) := by
  obtain ⟨col, op, v⟩ := c
  simp only at h
  cases v <;> simp [rowCond, joinedOf, mkCondRow, routeValue, decodeCond,
    decodeVal, h]

theorem rowCond_joined_other (rid2 rid' : String) (t : Int) (cid : String)
    (c : Cond) (h : c.1 ≠ "") :
    rowCond (joinedOf rid' t (mkCondRow cid rid2 "anime_dataset" c)) =
      some (false, decodeCond c) := by
  obtain ⟨col, op, v⟩ := c
  simp only at h
  cases v <;> simp [rowCond, joinedOf, mkCondRow, routeValue, decodeCond,
    decodeVal, h]

theorem filterMap_userOf_tag_user (cids : Nat → String) (rid rid' : String)
    (t : Int) (j : Nat) (cs : List Cond) (h : ∀ c ∈ cs, c.1 ≠ "") :
    ((tagConds cids rid "user_details" j cs).map (joinedOf rid' t)).filterMap
        userOf = cs.map decodeCond := by
  induction cs generalizing j with
  | nil => simp [tagConds]
  | cons c cs ih =>
    have hc : c.1 ≠ "" := h c (List.mem_cons_self c cs)
    simp only [tagConds, List.map_cons, List.filterMap_cons, userOf,
      rowCond_joined_user _ _ _ _ _ hc]
    rw [ih (j + 1) (fun c hcm => h c (List.mem_cons_of_mem _ hcm))]

theorem filterMap_userOf_tag_other (cids : Nat → String) (rid rid' : String)
    (t : Int) (j : Nat) (cs : List Cond) (h : ∀ c ∈ cs, c.1 ≠ "") :
    ((tagConds cids rid "anime_dataset" j cs).map (joinedOf rid' t)).filterMap
        userOf = [] := by
  induction cs generalizing j with
  | nil => simp [tagConds]
  | cons c cs ih =>
    have hc : c.1 ≠ "" := h c (List.mem_cons_self c cs)
    simp only [tagConds, List.map_cons, List.filterMap_cons, userOf,
      rowCond_joined_other _ _ _ _ _ hc]
    exact ih (j + 1) (fun c hcm => h c (List.mem_cons_of_mem _ hcm))

theorem filterMap_otherOf_tag_user (cids : Nat → String) (rid rid' : String)
    (t : Int) (j : Nat) (cs : List Cond) (h : ∀ c ∈ cs, c.1 ≠ "") :
    ((tagConds cids rid "user_details" j cs).map (joinedOf rid' t)).filterMap
        otherOf = [] := by
  induction cs generalizing j with
  | nil => simp [tagConds]
  | cons c cs ih =>
    have hc : c.1 ≠ "" := h c (List.mem_cons_self c cs)
    simp only [tagConds, List.map_cons, List.filterMap_cons, otherOf,
      rowCond_joined_user _ _ _ _ _ hc]
    exact ih (j + 1) (fun c hcm => h c (List.mem_cons_of_mem _ hcm))

theorem filterMap_otherOf_tag_other (cids : Nat → String) (rid rid' : String)
    (t : Int) (j : Nat) (cs : List Cond) (h : ∀ c ∈ cs, c.1 ≠ "") :
    ((tagConds cids rid "anime_dataset" j cs).map (joinedOf rid' t)).filterMap
        otherOf = cs.map decodeCond := by
  induction cs generalizing j with
  | nil => simp [tagConds]
  | cons c cs ih =>
    have hc : c.1 ≠ "" := h c (List.mem_cons_self c cs)
    simp only [tagConds, List.map_cons, List.filterMap_cons, otherOf,
      rowCond_joined_other _ _ _ _ _ hc]
    rw [ih (j + 1) (fun c hcm => h c (List.mem_cons_of_mem _ hcm))]

theorem condKeySet_perm (l1 l2 : List Cond) (h : List.Perm l1 l2) :
    condKeySet l1 = condKeySet l2 :=
  List.toFinset_eq_of_perm _ _ (h.map _)

theorem condKeySet_map_decode (cs : List Cond) :
    condKeySet (cs.map decodeCond) = condKeySet cs := by
  unfold condKeySet
  rw [List.map_map]
  rfl

/-- C1 (amended): for every rule all of whose condition columns are
non-empty strings, persisting it and fetching by its target value (with a
window large enough for its rows) returns a rule with the original's
signature; literal values need not round-trip. -/
theorem c1_roundtrip (r : Rule) (rid : String) (cids : Nat → String)
    (limit : Nat)
    (hcols : ∀ c ∈ r.userConditions ++ r.otherConditions, c.1 ≠ "")
    (hlim : r.ruleLen + 1 ≤ limit) :
    ∃ rw ∈ fetchByTarget (saveRules (fun _ => rid) (fun _ => cids) [r] ⟨[], []⟩)
        r.target 0 limit,
      rw.rule_id = rid ∧ rw.rule_obj.condSignature = r.condSignature := by
  have hcu : ∀ c ∈ r.userConditions, c.1 ≠ "" :=
    fun c hc => hcols c (List.mem_append.mpr (Or.inl hc))
  have hco : ∀ c ∈ r.otherConditions, c.1 ≠ "" :=
    fun c hc => hcols c (List.mem_append.mpr (Or.inr hc))
  have hdb : saveRules (fun _ => rid) (fun _ => cids) [r] ⟨[], []⟩ =
      ⟨[⟨rid, r.target⟩], condRowsOf cids rid r⟩ := by
    simp [saveRules, List.enum, List.enumFrom]
  rw [hdb]
  set L := condRowsOf cids rid r with hLdef
  by_cases hL : L = []
  · obtain ⟨hu0, ho0⟩ := List.append_eq_nil.mp (hLdef ▸ hL)
    have hu : r.userConditions = [] := by
      have := tagConds_length cids rid "user_details" 0 r.userConditions
      rw [hu0] at this
      exact List.eq_nil_of_length_eq_zero this.symm
    have ho : r.otherConditions = [] := by
      have := tagConds_length cids rid "anime_dataset" r.userConditions.length
        r.otherConditions
      rw [ho0] at this
      exact List.eq_nil_of_length_eq_zero this.symm
    obtain ⟨n, rfl⟩ : ∃ n, limit = n + 1 := ⟨limit - 1, by omega⟩
    have hfetch : fetchByTarget ⟨[⟨rid, r.target⟩], L⟩ r.target 0 (n + 1) =
        [⟨rid, ⟨[], [], r.target⟩⟩] := by
      rw [hL]
      simp [fetchByTarget, leftJoin, sortRows, insertRow, groupRows, groupStep,
        hasKey, findEntry, updEntry, applyRowData, rowCond, buildRules]
    rw [hfetch]
    exact ⟨⟨rid, ⟨[], [], r.target⟩⟩, by simp, rfl,
      by simp [Rule.condSignature, hu, ho]⟩
  · have hJoin : leftJoin ⟨[⟨rid, r.target⟩], L⟩ =
        L.map (joinedOf rid r.target) := by
      simp only [leftJoin, List.map_cons, List.map_nil, List.flatten_cons,
        List.flatten_nil, List.append_nil]
      rw [List.filter_eq_self.mpr
        (fun c hc => by simp [condRowsOf_rule_id cids rid r c (hLdef ▸ hc)])]
      cases hc : L with
      | nil => exact absurd hc hL
      | cons a as => rfl
    have hJtv : ∀ row ∈ L.map (joinedOf rid r.target),
        row.target_value = r.target := by
      intro row hrow
      obtain ⟨c, hc, rfl⟩ := List.mem_map.mp hrow
      rfl
    have hJrid : ∀ row ∈ L.map (joinedOf rid r.target), row.rule_id = rid := by
      intro row hrow
      obtain ⟨c, hc, rfl⟩ := List.mem_map.mp hrow
      rfl
    have hfilt : (L.map (joinedOf rid r.target)).filter
        (fun row => row.target_value = r.target) =
        L.map (joinedOf rid r.target) :=
      List.filter_eq_self.mpr (fun row hrow => by simp [hJtv row hrow])
    have hperm : List.Perm (sortRows (L.map (joinedOf rid r.target)))
        (L.map (joinedOf rid r.target)) := sortRows_perm _
    have hlenJ : (L.map (joinedOf rid r.target)).length = r.ruleLen := by
      simp [hLdef, condRowsOf, Rule.ruleLen, tagConds_length]
    have hlen : (sortRows (L.map (joinedOf rid r.target))).length ≤ limit := by
      rw [hperm.length_eq, hlenJ]
      omega
    have hfetch : fetchByTarget ⟨[⟨rid, r.target⟩], L⟩ r.target 0 limit =
        buildRules (groupRows (sortRows (L.map (joinedOf rid r.target)))) := by
      simp only [fetchByTarget]
      rw [hJoin, hfilt, List.drop_zero, List.take_of_length_le hlen]
    rw [hfetch]
    have hallrid : ∀ row ∈ sortRows (L.map (joinedOf rid r.target)),
        row.rule_id = rid :=
      fun row hrow => hJrid row (hperm.mem_iff.mp hrow)
    have hfiltrid : (sortRows (L.map (joinedOf rid r.target))).filter
        (fun row => row.rule_id = rid) =
        sortRows (L.map (joinedOf rid r.target)) :=
      List.filter_eq_self.mpr (fun row hrow => by simp [hallrid row hrow])
    have hne : sortRows (L.map (joinedOf rid r.target)) ≠ [] := by
      intro hcontra
      have hlen0 := hperm.length_eq
      rw [hcontra] at hlen0
      have hL0 : L.length = 0 := by simpa using hlen0.symm
      exact hL (List.eq_nil_of_length_eq_zero hL0)
    cases hS : sortRows (L.map (joinedOf rid r.target)) with
    | nil => exact absurd hS hne
    | cons r0 rest =>
      have hfe := findEntry_groupRows (sortRows (L.map (joinedOf rid r.target))) rid
      rw [hfiltrid, hS] at hfe
      have hmem := mem_of_findEntry _ _ _ hfe
      refine ⟨⟨rid, ⟨(r0 :: rest).filterMap userOf, (r0 :: rest).filterMap otherOf,
        r0.target_value⟩⟩, ?_, rfl, ?_⟩
      · exact List.mem_map.mpr ⟨_, hmem, rfl⟩
      · have hr0mem : r0 ∈ sortRows (L.map (joinedOf rid r.target)) := by
          rw [hS]
          exact List.mem_cons_self r0 rest
        have hr0t : r0.target_value = r.target := hJtv r0 (hperm.mem_iff.mp hr0mem)
        have hpermfu : List.Perm ((r0 :: rest).filterMap userOf)
            ((L.map (joinedOf rid r.target)).filterMap userOf) := by
          rw [← hS]
          exact hperm.filterMap userOf
        have hpermfo : List.Perm ((r0 :: rest).filterMap otherOf)
            ((L.map (joinedOf rid r.target)).filterMap otherOf) := by
          rw [← hS]
          exact hperm.filterMap otherOf
        have hJfu : (L.map (joinedOf rid r.target)).filterMap userOf =
            r.userConditions.map decodeCond := by
          rw [hLdef]
          unfold condRowsOf
          rw [List.map_append, List.filterMap_append,
            filterMap_userOf_tag_user cids rid rid r.target 0 r.userConditions hcu,
            filterMap_userOf_tag_other cids rid rid r.target
              r.userConditions.length r.otherConditions hco,
            List.append_nil]
        have hJfo : (L.map (joinedOf rid r.target)).filterMap otherOf =
            r.otherConditions.map decodeCond := by
          rw [hLdef]
          unfold condRowsOf
          rw [List.map_append, List.filterMap_append,
            filterMap_otherOf_tag_user cids rid rid r.target 0 r.userConditions hcu,
            filterMap_otherOf_tag_other cids rid rid r.target
              r.userConditions.length r.otherConditions hco,
            List.nil_append]
        have h1 : condKeySet ((r0 :: rest).filterMap userOf) =
            condKeySet r.userConditions := by
          rw [condKeySet_perm _ _ hpermfu, hJfu, condKeySet_map_decode]
        have h2 : condKeySet ((r0 :: rest).filterMap otherOf) =
            condKeySet r.otherConditions := by
          rw [condKeySet_perm _ _ hpermfo, hJfo, condKeySet_map_decode]
        simp [Rule.condSignature, h1, h2, hr0t]

/-- Counterexample to C1 as stated (over every Rule): persisting
`c1BadRule` and fetching target 5 returns exactly one rule, and its
signature differs from `c1BadRule`'s — the `("", "==")` key pair is lost
because the decode loop drops the empty-string column. -/
theorem c1_counterexample :
    fetchByTarget (saveRules (fun _ => "r1") (fun _ _ => "c0") [c1BadRule]
        ⟨[], []⟩) 5 0 500 = [⟨"r1", ⟨[], [], 5⟩⟩] ∧
      Rule.condSignature ⟨[], [], 5⟩ ≠ c1BadRule.condSignature := by
  constructor
  · decide
  · decide

/-- Witness for the amended C1 at `ruleA`: the fetched page contains a rule
with `ruleA`'s signature. -/
theorem c1_roundtrip_witness :
    ∃ rw ∈ fetchByTarget (saveRules (fun _ => "r1")
        (fun _ => fun j => toString j) [ruleA] ⟨[], []⟩) ruleA.target 0 500,
      rw.rule_id = "r1" ∧ rw.rule_obj.condSignature = ruleA.condSignature :=
  c1_roundtrip ruleA "r1" (fun j => toString j) 500 (by decide) (by decide)

/-- C3: two rules with equal condition signatures are equal under
`Rule.__eq__` and have equal `Rule.__hash__` values (for any hash function
of the signature), regardless of the literal comparison values and of the
ordering of the conditions. -/
theorem c3_signature_eq_hash (a b : Rule)
    (hsig : a.condSignature = b.condSignature) :
    ruleEq a b = true ∧
      ∀ h : Finset (String × String) × Finset (String × String) × Int → Int,
        ruleHash h a = ruleHash h b := by
  refine ⟨?_, fun h => ?_⟩
  · simp [ruleEq, hsig]
  · simp [ruleHash, hsig]

/-- Witness for C3: `ruleA` and `ruleB` have the same signature although
their condition orders and literal values differ, so they compare equal
and hash alike. -/
theorem c3_signature_eq_hash_witness :
    ruleEq ruleA ruleB = true ∧
      ∀ h : Finset (String × String) × Finset (String × String) × Int → Int,
        ruleHash h ruleA = ruleHash h ruleB :=
  c3_signature_eq_hash ruleA ruleB (by decide)

/-- C4: `is_subset_of` returns `false` whenever the targets differ, and
with equal targets it returns `true` exactly when both block key sets are
contained in the other rule's. -/
theorem c4_is_subset_of (a b : Rule) :
    (a.target ≠ b.target → a.isSubsetOf b = false) ∧
      (a.target = b.target →
        (a.isSubsetOf b = true ↔
          condKeySet a.userConditions ⊆ condKeySet b.userConditions ∧
            condKeySet a.otherConditions ⊆ condKeySet b.otherConditions)) := by
  constructor
  · intro hne
    simp [Rule.isSubsetOf, hne]
  · intro heq
    simp [Rule.isSubsetOf, heq]

/-- Witness for C4: `ruleA` and `ruleD` differ only in the target, so the
subset test fails; `ruleA`'s blocks are contained in `ruleC`'s, so with
equal targets the subset test succeeds. -/
theorem c4_is_subset_of_witness :
    ruleA.isSubsetOf ruleD = false ∧ ruleA.isSubsetOf ruleC = true :=
  ⟨(c4_is_subset_of ruleA ruleD).1 (by decide),
    ((c4_is_subset_of ruleA ruleC).2 (by decide)).mpr (by constructor <;> decide)⟩

/-- C5: `is_more_specific_than` holds exactly when `is_subset_of` holds and
the raw condition count (duplicates included) strictly exceeds the other
rule's; in particular it is `false` at equal raw counts even when the
subset relation holds. -/
theorem c5_is_more_specific_than (a b : Rule) :
    (a.isMoreSpecificThan b = true ↔
      a.isSubsetOf b = true ∧ a.ruleLen > b.ruleLen) ∧
      (a.isSubsetOf b = true → a.ruleLen = b.ruleLen →
        a.isMoreSpecificThan b = false) := by
  constructor
  · constructor
    · intro h
      by_cases hs : a.isSubsetOf b
      · refine ⟨hs, ?_⟩
        simpa [Rule.isMoreSpecificThan, hs, Rule.ruleLen] using h
      · simp [Rule.isMoreSpecificThan, hs] at h
    · rintro ⟨hs, hlen⟩
      simpa [Rule.isMoreSpecificThan, hs, Rule.ruleLen] using hlen
  · intro hs hlen
    simp [Rule.isMoreSpecificThan, hs, Rule.ruleLen] at hlen ⊢
    omega

/-- Witness for C5: `ruleE` has the same signature as `ruleB` (so the
subset relation holds) and one more raw condition, hence is more specific;
`ruleA` and `ruleB` have equal raw counts, so neither is more specific than
the other although each is a subset of the other. -/
theorem c5_is_more_specific_than_witness :
    ruleE.isMoreSpecificThan ruleB = true ∧
      ruleA.isMoreSpecificThan ruleB = false :=
  ⟨((c5_is_more_specific_than ruleE ruleB).1).mpr ⟨by decide, by decide⟩,
    (c5_is_more_specific_than ruleA ruleB).2 (by decide) (by decide)⟩

/-- C2 evidence: the fetch windows the *joined rows*, not the rules.  For
a store holding one rule (target 7) with two conditions and `limit = 1`,
offsets 0 and 1 both return `rule_id` "r1" — each page carrying only one
of the two conditions — offset 2 is the short page that stops iteration,
while the unbounded fetch returns the one complete rule.  So iterating to
the short page yields the same `rule_id` on two pages (and two partial
rules) against one distinct rule in the unbounded fetch. -/
theorem c2_pagination_split :
    fetchByTarget dbPag 7 0 1 =
        [⟨"r1", ⟨[("a", (">", PyVal.intV 1))], [], 7⟩⟩] ∧
      fetchByTarget dbPag 7 1 1 =
        [⟨"r1", ⟨[("b", ("<", PyVal.intV 2))], [], 7⟩⟩] ∧
      fetchByTarget dbPag 7 2 1 = [] ∧
      fetchByTarget dbPag 7 0 500 = [⟨"r1", rulePag⟩] :=
  ⟨by decide, by decide, by decide, by decide⟩

theorem getCol_updateRow_mem (assign : List String) (incoming existing : SqlRow)
    (c v : String) (hc : c ∈ assign) (hv : getCol incoming c = some v) :
    getCol (updateRow assign incoming existing) c =
      (getCol existing c).map (fun _ => v) := by
  induction existing with
  | nil => simp [updateRow, getCol]
  | cons p ps ih =>
    obtain ⟨k, w⟩ := p
    by_cases hp : k = c
    · subst hp
      simp only [updateRow, List.map_cons, if_pos hc, getCol]
      rw [List.find?_cons_of_pos _ (by simp),
        List.find?_cons_of_pos _ (by simp)]
      have hv2 : Option.map (fun p => p.2)
          (List.find? (fun p => decide (p.1 = k)) incoming) = some v := hv
      simp [hv2]
    · by_cases hpa : k ∈ assign
      · simp only [updateRow, List.map_cons, if_pos hpa, getCol]
        rw [List.find?_cons_of_neg _ (by simp [hp]),
          List.find?_cons_of_neg _ (by simp [hp])]
        exact ih
      · simp only [updateRow, List.map_cons, if_neg hpa, getCol]
        rw [List.find?_cons_of_neg _ (by simp [hp]),
          List.find?_cons_of_neg _ (by simp [hp])]
        exact ih

theorem getCol_updateRow_not_mem (assign : List String)
    (incoming existing : SqlRow) (c : String) (hc : c ∉ assign) :
    getCol (updateRow assign incoming existing) c = getCol existing c := by
  induction existing with
  | nil => simp [updateRow, getCol]
  | cons p ps ih =>
    by_cases hpa : p.1 ∈ assign
    · have hp : p.1 ≠ c := fun h => hc (h ▸ hpa)
      simp only [updateRow, List.map_cons, if_pos hpa, getCol]
      rw [List.find?_cons_of_neg _ (by simp [hp]),
        List.find?_cons_of_neg _ (by simp [hp])]
      exact ih
    · by_cases hp : p.1 = c
      · simp only [updateRow, List.map_cons, if_neg hpa, getCol]
        rw [List.find?_cons_of_pos _ (by simp [hp]),
          List.find?_cons_of_pos _ (by simp [hp])]
      · simp only [updateRow, List.map_cons, if_neg hpa, getCol]
        rw [List.find?_cons_of_neg _ (by simp [hp]),
          List.find?_cons_of_neg _ (by simp [hp])]
        exact ih

/-- C6: the conflict key is a function of the table name alone
(`user_score → {user_id, anime_id}`, `anime_dataset → {anime_id}`,
`user_details → {mal_id}`, anything else → none, giving a plain insert);
with a conflict key, "DO UPDATE" emits assignments for exactly the
non-key columns and, under PostgreSQL's semantics of the generated
statement, overwrites every assigned column from the incoming row, while
"DO NOTHING" leaves conflicting state untouched; non-conflicting rows are
inserted either way. -/
theorem c6_conflict_policy :
    getConflictColumns "user_score" = ["user_id", "anime_id"] ∧
    getConflictColumns "anime_dataset" = ["anime_id"] ∧
    getConflictColumns "user_details" = ["mal_id"] ∧
    (∀ t : String, t ≠ "user_score" → t ≠ "anime_dataset" →
      t ≠ "user_details" → getConflictColumns t = []) ∧
    (∀ (t : String) (cols : List String) (a : String) (u : Option String),
      constructSql t cols [] a u = insertStmtHead t cols) ∧
    (∀ (t : String) (cols ccols : List String), ccols ≠ [] →
      constructSql t cols ccols "DO UPDATE" none =
        insertStmtHead t cols ++ " " ++
          ("ON CONFLICT (" ++ String.intercalate ", " ccols ++ ")") ++
          " DO UPDATE SET " ++ updateClause cols ccols) ∧
    (∀ (t : String) (cols ccols : List String), ccols ≠ [] →
      constructSql t cols ccols "DO NOTHING" none =
        insertStmtHead t cols ++ " " ++
          ("ON CONFLICT (" ++ String.intercalate ", " ccols ++ ")") ++
          " " ++ "DO NOTHING") ∧
    (∀ (cols ccols : List String) (c : String),
      c ∈ updateClauseCols cols ccols ↔ c ∈ cols ∧ c ∉ ccols) ∧
    (∀ (assign : List String) (incoming existing : SqlRow) (c v : String),
      c ∈ assign → getCol incoming c = some v →
      getCol (updateRow assign incoming existing) c =
        (getCol existing c).map (fun _ => v)) ∧
    (∀ (assign : List String) (incoming existing : SqlRow) (c : String),
      c ∉ assign →
      getCol (updateRow assign incoming existing) c = getCol existing c) ∧
    (∀ (ccols assign : List String) (state : List SqlRow) (row : SqlRow),
      ccols ≠ [] → state.any (fun r => sameKey ccols row r) = true →
      execInsertRow ccols assign false state row = state) ∧
    (∀ (ccols assign : List String) (b : Bool) (state : List SqlRow)
      (row : SqlRow),
      state.any (fun r => sameKey ccols row r) = false →
      execInsertRow ccols assign b state row = state ++ [row]) := by
  refine ⟨by decide, by decide, by decide, ?_, ?_, ?_, ?_, ?_, ?_, ?_, ?_, ?_⟩
  · intro t h1 h2 h3
    simp [getConflictColumns, h1, h2, h3]
  · intro t cols a u
    simp [constructSql]
  · intro t cols ccols h
    simp [constructSql, h]
  · intro t cols ccols h
    simp [constructSql, h]
  · intro cols ccols c
    simp [updateClauseCols]
  · exact getCol_updateRow_mem
  · exact getCol_updateRow_not_mem
  · intro ccols assign state row h1 h2
    simp [execInsertRow, h1, h2]
  · intro ccols assign b state row h
    by_cases hc : ccols = []
    · simp [execInsertRow, hc]
    · simp [execInsertRow, hc, h]

/-- Witness for C6: an unknown table has no conflict key; the statement
for `anime_dataset` under "DO UPDATE" carries the `EXCLUDED` assignment
for the one non-key column; replaying the §8 example row under
"DO NOTHING" leaves the stored row untouched, and under the update
semantics the non-key `name` column is overwritten. -/
theorem c6_conflict_policy_witness :
    getConflictColumns "some_other_table" = [] ∧
      constructSql "anime_dataset" ["anime_id", "name"] ["anime_id"]
          "DO UPDATE" none =
        insertStmtHead "anime_dataset" ["anime_id", "name"] ++ " " ++
          ("ON CONFLICT (" ++ String.intercalate ", " ["anime_id"] ++ ")") ++
          " DO UPDATE SET " ++ updateClause ["anime_id", "name"] ["anime_id"] ∧
      execInsertRow ["anime_id"] ["name"] false
          [[("anime_id", "1"), ("name", "Foo")]]
          [("anime_id", "1"), ("name", "FooV2")] =
        [[("anime_id", "1"), ("name", "Foo")]] ∧
      getCol (updateRow ["name"] [("anime_id", "1"), ("name", "FooV2")]
          [("anime_id", "1"), ("name", "Foo")]) "name" =
        (getCol [("anime_id", "1"), ("name", "Foo")] "name").map
          (fun _ => "FooV2") :=
  ⟨c6_conflict_policy.2.2.2.1 "some_other_table" (by decide) (by decide)
      (by decide),
    c6_conflict_policy.2.2.2.2.2.1 "anime_dataset" ["anime_id", "name"]
      ["anime_id"] (by decide),
    c6_conflict_policy.2.2.2.2.2.2.2.2.2.2.1 ["anime_id"] ["name"]
      [[("anime_id", "1"), ("name", "Foo")]]
      [("anime_id", "1"), ("name", "FooV2")] (by decide) (by decide),
    c6_conflict_policy.2.2.2.2.2.2.2.2.1 ["name"]
      [("anime_id", "1"), ("name", "FooV2")]
      [("anime_id", "1"), ("name", "Foo")] "name" "FooV2" (by decide)
      (by decide)⟩

/-- C7: a non-null, non-empty value of a list-valued column is always
produced without error: when the abstract `ast.literal_eval` yields a
list, the cell is re-encoded as the PostgreSQL array literal (backslashes
and quotes escaped first, and an element still containing a comma, space,
brace or quote wrapped in quotes); when it yields a non-list literal or
raises, the original text is kept unchanged. -/
theorem c7_list_literal_coercion :
    (∀ (parse : String → ParseResult) (col v : String),
      col ∈ arrayColumns → v ≠ "" → v ≠ "\\N" →
      cleanCell parse col v = some (processArrayValue parse v)) ∧
    (∀ (parse : String → ParseResult) (v : String) (xs : List String),
      parse v = ParseResult.okList xs →
      processArrayValue parse v = toPgArray xs) ∧
    (∀ (parse : String → ParseResult) (v : String),
      parse v = ParseResult.err ∨ parse v = ParseResult.nonList →
      processArrayValue parse v = v) ∧
    (∀ xs : List String,
      toPgArray xs =
        "\x7b" ++ String.intercalate "," (xs.map escapeElement) ++ "\x7d") ∧
    (∀ el : String,
      escapeElement el =
        (fun e =>
          if [',', ' ', '\x7b', '\x7d', '\"'].any (fun c => e.contains c) then
            "\"" ++ e ++ "\""
          else e) ((el.replace "\\" "\\\\").replace "\"" "\\\"")) := by
  refine ⟨?_, ?_, ?_, fun xs => rfl, fun el => rfl⟩
  · intro parse col v hcol hne hnn
    simp [cleanCell, hcol, hne, hnn]
  · intro parse v xs h
    simp [processArrayValue, h]
  · intro parse v h
    rcases h with h | h <;> simp [processArrayValue, h]

/-- A concrete stand-in for `ast.literal_eval` used by the C7 witness. -/
def parseW : String → ParseResult :=
  fun s => if s = "['a b', 'c']" then ParseResult.okList ["a b", "c"] else
    ParseResult.err

/-- Witness for C7: the genres cell `"['a b', 'c']"` re-encodes to the
array literal (with the space-containing element quoted), and an
unparseable cell passes through unchanged. -/
theorem c7_list_literal_coercion_witness :
    cleanCell parseW "genres" "['a b', 'c']" =
        some (processArrayValue parseW "['a b', 'c']") ∧
      processArrayValue parseW "['a b', 'c']" = toPgArray ["a b", "c"] ∧
      processArrayValue parseW "[broken" = "[broken" :=
  ⟨c7_list_literal_coercion.1 parseW "genres" "['a b', 'c']" (by decide)
      (by decide) (by decide),
    c7_list_literal_coercion.2.1 parseW "['a b', 'c']" ["a b", "c"]
      (by decide),
    c7_list_literal_coercion.2.2.1 parseW "[broken" (Or.inl (by decide))⟩

/-- A configuration whose password is empty (falsy). -/
def incompleteConfig : DBConfig := ⟨"localhost", 5432, "db", "user", ""⟩

/-- An engine constructor that always succeeds. -/
def okCreateEngine : String → Except String String := fun s => Except.ok s

/-- Counterexample to C8 as stated: with the password parameter empty,
engine construction does not raise — it logs and completes normally with
no engine at all. -/
theorem c8_counterexample :
    initSqlalchemyEngine okCreateEngine (some incompleteConfig) =
      Except.ok none := rfl

/-- C8 (amended): an absent or incomplete configuration makes
`_init_sqlalchemy_engine` complete *without* raising, leaving the engine
unset; the failure surfaces only on first use of `connection()`, which
raises the storage error because the engine was never initialized.  The
initializer itself raises the storage error only when the underlying
engine constructor raises; a complete configuration yields the engine
built from the connection string. -/
theorem c8_engine_init (ce : String → Except String String)
    (config : Option DBConfig) :
    (∀ c, config = some c → configComplete c = false →
      initSqlalchemyEngine ce config = Except.ok none) ∧
    (config = none → initSqlalchemyEngine ce config = Except.ok none) ∧
    (∀ (α : Type) (op : String → Except String α),
      runWithConnection (none : Option String) op =
        Except.error
          ⟨"Connection failed", some "Database engine not initialized"⟩) ∧
    (∀ c e, config = some c → configComplete c = true →
      ce (connString c) = Except.ok e →
      initSqlalchemyEngine ce config = Except.ok (some e)) ∧
    (∀ c msg, config = some c → configComplete c = true →
      ce (connString c) = Except.error msg →
      initSqlalchemyEngine ce config =
        Except.error "SQLAlchemy engine initialization failed") := by
  refine ⟨?_, ?_, ?_, ?_, ?_⟩
  · intro c hc hcc
    subst hc
    simp [initSqlalchemyEngine, hcc]
  · intro hc
    subst hc
    simp [initSqlalchemyEngine]
  · intro α op
    rfl
  · intro c e hc hcc hce
    subst hc
    simp [initSqlalchemyEngine, hcc, hce]
  · intro c msg hc hcc hce
    subst hc
    simp [initSqlalchemyEngine, hcc, hce]

/-- Witness for the amended C8: the empty-password configuration completes
with no engine, and first connection use fails with the wrapped storage
error. -/
theorem c8_engine_init_witness :
    initSqlalchemyEngine okCreateEngine (some incompleteConfig) =
        Except.ok none ∧
      runWithConnection (none : Option String)
          (fun e => (Except.ok e : Except String String)) =
        Except.error
          ⟨"Connection failed", some "Database engine not initialized"⟩ :=
  ⟨(c8_engine_init okCreateEngine (some incompleteConfig)).1
      incompleteConfig rfl (by decide),
    (c8_engine_init okCreateEngine (some incompleteConfig)).2.2.1 String
      (fun e => Except.ok e)⟩

/-- Counterexample to C9 as stated: with a live engine, a query-level
fault raised inside the paginated fetch is *not* surfaced — the caller
receives the empty list as a normal result. -/
theorem c9_counterexample :
    getRulesPaginatedResult (some "engine") (Except.error "boom") =
      Except.ok [] := rfl

/-- C9 (amended): faults raised while acquiring the connection, and
faults a unit of work re-raises (as `save_rules` does), are wrapped into
the single storage error with the original fault preserved as its cause;
but a query-level fault inside the paginated fetch is caught by its inner
handler and converted into the empty-list result. -/
theorem c9_fault_wrapping (engine : Option String) :
    (∀ (α : Type) (op : String → Except String α),
      engine = none →
      runWithConnection engine op =
        Except.error
          ⟨"Connection failed", some "Database engine not initialized"⟩) ∧
    (∀ (α : Type) (op : String → Except String α) (e exc : String),
      engine = some e → op e = Except.error exc →
      runWithConnection engine op =
        Except.error ⟨"Connection failed", some exc⟩) ∧
    (∀ (e exc : String), engine = some e →
      saveRulesResult engine (Except.error exc) =
        Except.error ⟨"Connection failed", some exc⟩) ∧
    (∀ (e exc : String), engine = some e →
      getRulesPaginatedResult engine (Except.error exc) = Except.ok []) := by
  refine ⟨?_, ?_, ?_, ?_⟩
  · intro α op hc
    subst hc
    rfl
  · intro α op e exc hc hop
    subst hc
    simp [runWithConnection, hop]
  · intro e exc hc
    subst hc
    rfl
  · intro e exc hc
    subst hc
    rfl

/-- Witness for the amended C9: a save fault is wrapped with its cause
kept, while the same fault inside the paginated fetch yields the
empty-list result. -/
theorem c9_fault_wrapping_witness :
    saveRulesResult (some "engine") (Except.error "boom") =
        Except.error ⟨"Connection failed", some "boom"⟩ ∧
      getRulesPaginatedResult (some "engine") (Except.error "boom") =
        Except.ok [] :=
  ⟨(c9_fault_wrapping (some "engine")).2.2.1 "engine" "boom" rfl,
    (c9_fault_wrapping (some "engine")).2.2.2 "engine" "boom" rfl⟩

end GRM
